import Mathlib

/-!
Shallow embedding of the egg-sales forecasting dashboard (`app.py`).

The embedded core is the module-level initialization (lines 26-51: CSV load,
date parsing with `errors="coerce"`, Prophet fit on the rows with valid dates,
prediction over the valid test dates, positional write-back of predictions),
the analytics callback `update_graph` (lines 170-290: month/year filter,
summary statistics, degree-1 polyfit trend), and the lookup callback
`show_prediction` (lines 299-337: exact-date match, Python rounding).

External library calls are embedded by their documented behaviour:
`pd.to_datetime(..., errors="coerce")` is represented by rows already
carrying an `Option Date` (`none` = NaT), the Prophet model is the
black-box capability `predict : List Date → List Rat` (the spec treats its
mathematics as external), pandas `sum/mean/max/std` and `np.polyfit` are
written out below, and Python `round` is round-half-to-even.
-/

namespace EggSales

/-- A parsed calendar date, as produced by `pd.to_datetime`. -/
structure Date where
  year : Int
  month : Nat
  day : Nat
deriving DecidableEq, Repr

/-- One row of `train_egg_sales.csv` after line 28 has run: `date` is the
result of `pd.to_datetime(..., dayfirst=True, errors="coerce")` (`none` for
NaT, i.e. an unparseable date string), `eggSales` is the `Egg Sales` column. -/
structure RawTrainRow where
  date : Option Date
  eggSales : Rat
deriving DecidableEq, Repr

/-- A `train_df` row after lines 29-30 add the `Year` and `Month` columns
(`NaN`, i.e. `none`, where the date is NaT). -/
structure TrainRow where
  date : Option Date
  year : Option Int
  month : Option Nat
  eggSales : Rat
deriving DecidableEq, Repr

/-- Lines 29-30: `train_df["Year"] = train_df["Date"].dt.year` and likewise
for `Month`; NaT dates yield NaN year/month. -/
def mkTrainRow (r : RawTrainRow) : TrainRow :=
  { date := r.date
    year := r.date.map Date.year
    month := r.date.map Date.month
    eggSales := r.eggSales }

/-- `train_df` as it stands after lines 27-30. -/
def loadTrain (rows : List RawTrainRow) : List TrainRow :=
  rows.map mkTrainRow

/-- One row of `test_egg_sales.csv` after line 33 has parsed the date column. -/
structure RawTestRow where
  date : Option Date
deriving DecidableEq, Repr

/-- A `test_df` row after lines 34-35 add `Year` and `Month`. -/
structure TestRow where
  date : Option Date
  year : Option Int
  month : Option Nat
deriving DecidableEq, Repr

/-- Lines 34-35. -/
def mkTestRow (r : RawTestRow) : TestRow :=
  { date := r.date
    year := r.date.map Date.year
    month := r.date.map Date.month }

/-- `test_df` as it stands after lines 32-35. -/
def loadTest (rows : List RawTestRow) : List TestRow :=
  rows.map mkTestRow

/-- Line 38: `prophet_df = train_df.dropna(subset=["Date"])` — the rows the
model is fitted on. -/
def prophetInput (t : List TrainRow) : List TrainRow :=
  t.filter (fun r => r.date.isSome)

/-- Line 42: `future = test_df.dropna(subset=["Date"])` — the rows sent to
`model.predict`. -/
def futureInput (t : List TestRow) : List TestRow :=
  t.filter (fun r => r.date.isSome)

/-- A `test_df` row after line 44 has (possibly) written the
`Egg Sales Prediction` column: `pred = none` means the cell is NaN because
the row was never assigned (its date failed to parse). -/
structure PredRecord where
  date : Option Date
  pred : Option Rat
deriving DecidableEq, Repr

/-- Line 44: `test_df.loc[future.index, "Egg Sales Prediction"] =
forecast["yhat"].values`. `future.index` lists, in original order, the
positions of the rows whose date parsed, so the k-th prediction lands on the
k-th surviving row; rows that were dropped from `future` keep a NaN cell.
(The `some d, []` case is unreachable when the prediction list has the
length of the surviving rows; pandas would raise on a length mismatch.) -/
def align : List TestRow → List Rat → List PredRecord
  | [], _ => []
  | r :: rs, ps =>
    match r.date, ps with
    | some d, p :: ps2 => { date := some d, pred := some p } :: align rs ps2
    | some d, [] => { date := some d, pred := none } :: align rs []
    | none, _ => { date := none, pred := none } :: align rs ps

/-- The module-level state the two callbacks read: `data_loaded`, `train_df`
and `test_df` (the latter with its `Egg Sales Prediction` column). -/
structure PipelineState where
  dataLoaded : Bool
  train : List TrainRow
  testAligned : List PredRecord
deriving DecidableEq, Repr

/-- Lines 47-51: the `except` branch sets `data_loaded = False` and leaves
both dataframes empty. -/
def failedState : PipelineState :=
  { dataLoaded := false, train := [], testAligned := [] }

/-- Lines 26-51, the one-time initialization. `predict` is the Prophet
capability (a black box per the spec): one `yhat` per input date. The two
in-scope failure modes of the `try` block are modelled: `model.fit` raises
when fewer than 2 valid-dated training rows exist, and `model.predict`
raises on an empty frame; any exception lands in `failedState`. -/
def initPipeline (rawTrain : List RawTrainRow) (rawTest : List RawTestRow)
    (predict : List Date → List Rat) : PipelineState :=
  let train := loadTrain rawTrain
  let test := loadTest rawTest
  if (prophetInput train).length < 2 then failedState
  else if futureInput test = [] then failedState
  else
    { dataLoaded := true
      train := train
      testAligned :=
        align test (predict ((futureInput test).filterMap (fun r => r.date))) }

/-- Line 182: `train_df[(train_df["Month"] == month) & (train_df["Year"] ==
year)]`. A NaN month/year (unparseable date) compares unequal to every
number. -/
def filterWindow (t : List TrainRow) (m : Nat) (y : Int) : List TrainRow :=
  t.filter (fun r => decide (r.month = some m ∧ r.year = some y))

/-- Pandas `Series.max()` (line 274): the maximum of the values, NaN (`none`)
on an empty series. -/
def seriesMax : List Rat → Option Rat
  | [] => none
  | v :: vs =>
    match seriesMax vs with
    | none => some v
    | some m => some (max v m)

/-- Pandas `Series.std()` (line 279) is the square root of the sample
variance (ddof = 1): `sqrt(Σ (x - mean)² / (n - 1))`, NaN when fewer than 2
values. The square root of a rational is irrational in general, so the
embedding tracks the radicand: `std = sqrt` of this value, and `std` is NaN
exactly when this is `none`. -/
def sampleVar (vals : List Rat) : Option Rat :=
  if vals.length < 2 then none
  else
    some (((vals.map (fun v => (v - vals.sum / (vals.length : Rat)) ^ 2)).sum)
      / ((vals.length : Rat) - 1))

/-- The four statistics cards of lines 260-281 plus the row count. `var` is
the sample variance whose square root line 279 displays. -/
structure StatsSummary where
  total : Rat
  mean : Rat
  max : Option Rat
  var : Option Rat
  count : Nat
deriving DecidableEq, Repr

/-- Lines 260-281: `stats_data.sum()`, `stats_data.mean()`,
`stats_data.max()`, `stats_data.std()` over the filtered `Egg Sales`
series. -/
def summarize (vals : List Rat) : StatsSummary :=
  { total := vals.sum
    mean := vals.sum / (vals.length : Rat)
    max := seriesMax vals
    var := sampleVar vals
    count := vals.length }

/-- The trend overlay of lines 214-224: slope and intercept of the degree-1
fit and the fitted value at each position. -/
structure TrendLine where
  slope : Rat
  intercept : Rat
  fitted : List Rat
deriving DecidableEq, Repr

/-- The slope `np.polyfit(range(n), ys, 1)` computes (line 215): the
degree-1 least-squares problem over the full-rank design `x = 0..n-1` has
the unique solution given by the normal equations, whose closed form this
is. -/
def olsSlope (ys : List Rat) : Rat :=
  let n := ys.length
  let xs : List Rat := (List.range n).map (fun i : Nat => (i : Rat))
  ((n : Rat) * ((xs.zip ys).map (fun p => p.1 * p.2)).sum - xs.sum * ys.sum)
    / ((n : Rat) * (xs.map (fun x => x ^ 2)).sum - xs.sum ^ 2)

/-- The intercept of the same least-squares fit. -/
def olsIntercept (ys : List Rat) : Rat :=
  let n := ys.length
  let xs : List Rat := (List.range n).map (fun i : Nat => (i : Rat))
  (ys.sum - olsSlope ys * xs.sum) / (n : Rat)

/-- Lines 213-224: only when `len(filtered) > 5`, `z = np.polyfit(range(n),
ys, 1)` and `p(range(n))`; `np.poly1d` evaluates `slope*x + intercept` at
each position. -/
def fitTrend (ys : List Rat) : Option TrendLine :=
  if ys.length ≤ 5 then none
  else
    some { slope := olsSlope ys
           intercept := olsIntercept ys
           fitted := ((List.range ys.length).map (fun i : Nat => (i : Rat))).map
             (fun x => olsSlope ys * x + olsIntercept ys) }

/-- The three observable outcomes of the `update_graph` callback: the
"Data Not Available" error panel (lines 171-180), the "No Data Found" panel
(lines 184-193), or a rendered figure with its statistics cards. -/
inductive GraphResult where
  | dataNotAvailable
  | noDataFound
  | rendered (stats : StatsSummary) (trend : Option TrendLine)
deriving DecidableEq, Repr

/-- Lines 170-290. -/
def update_graph (st : PipelineState) (m : Nat) (y : Int) : GraphResult :=
  if st.dataLoaded = false ∨ st.train = [] then .dataNotAvailable
  else
    let filtered := filterWindow st.train m y
    if filtered = [] then .noDataFound
    else
      .rendered (summarize (filtered.map (fun r => r.eggSales)))
        (fitTrend (filtered.map (fun r => r.eggSales)))

/-- Python's built-in `round` applied on line 313 (`int(round(...))`):
round half to even. -/
def roundHalfEven (q : Rat) : Int :=
  if q - ⌊q⌋ < 1 / 2 then ⌊q⌋
  else if 1 / 2 < q - ⌊q⌋ then ⌊q⌋ + 1
  else if ⌊q⌋ % 2 = 0 then ⌊q⌋ else ⌊q⌋ + 1

/-- The three observable outcomes of the `show_prediction` callback: the
"Prediction Unavailable" panel (lines 300-306), a rounded prediction value
(lines 312-328), or the "Date Out of Range" panel (lines 329-335). -/
inductive PredResult where
  | unavailable
  | found (value : Int)
  | outOfRange
deriving DecidableEq, Repr

/-- Lines 299-337: `row = test_df[test_df["Date"] == selected_date]`; if the
match is nonempty and its first row's prediction is not NaN, return
`int(round(...))` of it, else the out-of-range panel. NaT dates compare
unequal to every date. -/
def show_prediction (st : PipelineState) (d : Date) : PredResult :=
  if st.dataLoaded = false ∨ st.testAligned = [] then .unavailable
  else
    match st.testAligned.filter (fun r => decide (r.date = some d)) with
    | [] => .outOfRange
    | r :: _ =>
      match r.pred with
      | some v => .found (roundHalfEven v)
      | none => .outOfRange

/-! Concrete sample data used by the witnesses and counterexamples. -/

/-- 1 Jan 2021. -/
def d20210101 : Date := { year := 2021, month := 1, day := 1 }

/-- 15 Jan 2021. -/
def d20210115 : Date := { year := 2021, month := 1, day := 15 }

/-- 1 Feb 2021. -/
def d20210201 : Date := { year := 2021, month := 2, day := 1 }

/-- 5 Jan 2022. -/
def d20220105 : Date := { year := 2022, month := 1, day := 5 }

/-- 6 Jan 2022. -/
def d20220106 : Date := { year := 2022, month := 1, day := 6 }

/-- A training CSV: two valid rows, enough for the model to fit. -/
def rt0 : List RawTrainRow :=
  [ { date := some d20210101, eggSales := 100 }
  , { date := some d20210115, eggSales := 120 } ]

/-- A training CSV with an unparseable date in the middle. -/
def rtBad : List RawTrainRow :=
  [ { date := some d20210101, eggSales := 100 }
  , { date := none, eggSales := 55 }
  , { date := some d20210115, eggSales := 120 } ]

/-- A future-request CSV of three rows whose middle date fails to parse. -/
def ts0 : List RawTestRow :=
  [ { date := some d20220105 }, { date := none }, { date := some d20220106 } ]

/-- A black-box model capability: one value per requested date. -/
def p0 : List Date → List Rat :=
  fun ds => ds.map (fun _ => (7 : Rat))

/-- Scenario 1 of the spec: three observations, two in January 2021. -/
def rows0 : List TrainRow :=
  loadTrain
    [ { date := some d20210101, eggSales := 100 }
    , { date := some d20210115, eggSales := 120 }
    , { date := some d20210201, eggSales := 90 } ]

/-- The January 2021 values of `rows0`. -/
def vals0 : List Rat := [100, 120]

/-- Six equal values, enough points for the trend line. -/
def ys0 : List Rat := [3, 3, 3, 3, 3, 3]

/-- The trend line `fitTrend` produces on `ys0`. -/
def t0 : TrendLine := { slope := 0, intercept := 3, fitted := [3, 3, 3, 3, 3, 3] }

/-- An aligned test set with a duplicated date: the first record holds 87.5,
the duplicate holds 5. -/
def st6 : PipelineState :=
  { dataLoaded := true
    train := []
    testAligned :=
      [ { date := some d20220105, pred := some (175 / 2) }
      , { date := some d20220105, pred := some 5 } ] }

/-- The first record of `st6`'s aligned set. -/
def rec6 : PredRecord := { date := some d20220105, pred := some (175 / 2) }

/-- An aligned test set holding the halfway prediction 88.5. -/
def st9 : PipelineState :=
  { dataLoaded := true
    train := []
    testAligned := [ { date := some d20220106, pred := some (177 / 2) } ] }

end EggSales

namespace EggSales

/-! Helper lemmas about the embedded operations. -/

theorem mkTrainRow_date (r : RawTrainRow) : (mkTrainRow r).date = r.date := rfl

theorem mkTrainRow_month (r : RawTrainRow) :
    (mkTrainRow r).month = r.date.map Date.month := rfl

theorem mkTestRow_date (r : RawTestRow) : (mkTestRow r).date = r.date := rfl

theorem countP_date_split (l : List RawTrainRow) :
    l.countP (fun r => r.date.isSome) + l.countP (fun r => r.date.isNone)
      = l.length := by
  induction l with
  | nil => simp
  | cons r rs ih =>
    cases hr : r.date <;> simp [List.countP_cons, hr] <;> omega

theorem prophetInput_loadTrain (raws : List RawTrainRow) :
    prophetInput (loadTrain raws)
      = (raws.filter (fun r => r.date.isSome)).map mkTrainRow := by
  induction raws with
  | nil => rfl
  | cons r rs ih =>
    cases hr : r.date <;>
      simp [prophetInput, loadTrain, mkTrainRow, List.filter_cons, hr] <;>
      simpa [prophetInput, loadTrain] using ih

theorem mem_prophetInput_isSome (raws : List RawTrainRow) :
    ∀ r ∈ prophetInput (loadTrain raws), r.date.isSome = true := by
  intro r hr
  have := List.of_mem_filter hr
  simpa using this

theorem mem_futureInput_isSome (raws : List RawTestRow) :
    ∀ r ∈ futureInput (loadTest raws), r.date.isSome = true := by
  intro r hr
  have := List.of_mem_filter hr
  simpa using this

theorem testCountP_date_split (l : List RawTestRow) :
    l.countP (fun r => r.date.isSome) + l.countP (fun r => r.date.isNone)
      = l.length := by
  induction l with
  | nil => simp
  | cons r rs ih =>
    cases hr : r.date <;> simp [List.countP_cons, hr] <;> omega

theorem futureInput_loadTest (raws : List RawTestRow) :
    futureInput (loadTest raws)
      = (raws.filter (fun r => r.date.isSome)).map mkTestRow := by
  induction raws with
  | nil => rfl
  | cons r rs ih =>
    cases hr : r.date <;>
      simp [futureInput, loadTest, mkTestRow, List.filter_cons, hr] <;>
      simpa [futureInput, loadTest] using ih

end EggSales

namespace EggSales

theorem align_length (rows : List TestRow) (ps : List Rat) :
    (align rows ps).length = rows.length := by
  induction rows generalizing ps with
  | nil => rfl
  | cons r rs ih =>
    obtain ⟨rdate, ryear, rmonth⟩ := r
    cases rdate <;> cases ps <;> simp [align, ih]

theorem align_date_none_pred (rows : List TestRow) (ps : List Rat) :
    ∀ rec ∈ align rows ps, rec.date = none → rec.pred = none := by
  induction rows generalizing ps with
  | nil => simp [align]
  | cons r rs ih =>
    intro rec hrec hdate
    obtain ⟨rdate, ryear, rmonth⟩ := r
    cases rdate with
    | none =>
      rcases List.mem_cons.1 (by simpa [align] using hrec) with h | h
      · simp [h]
      · exact ih ps rec h hdate
    | some d =>
      cases ps with
      | nil =>
        rcases List.mem_cons.1 (by simpa [align] using hrec) with h | h
        · rw [h] at hdate; simp at hdate
        · exact ih [] rec h hdate
      | cons p ps2 =>
        rcases List.mem_cons.1 (by simpa [align] using hrec) with h | h
        · rw [h] at hdate; simp at hdate
        · exact ih ps2 rec h hdate

theorem align_pred_some_date (rows : List TestRow) (ps : List Rat) :
    ∀ rec ∈ align rows ps, rec.pred.isSome = true → rec.date.isSome = true := by
  intro rec hrec hpred
  cases hdate : rec.date with
  | none =>
    have := align_date_none_pred rows ps rec hrec hdate
    rw [this] at hpred
    simp at hpred
  | some d => simp

theorem align_spec (raws : List RawTestRow) (ps : List Rat)
    (hps : ps.length
      = ((loadTest raws).filter (fun r => r.date.isSome)).length) :
    (∀ pr ∈ raws.zip (align (loadTest raws) ps),
        pr.2.date = pr.1.date ∧
        (pr.1.date = none → pr.2.pred = none) ∧
        (pr.1.date.isSome = true → pr.2.pred.isSome = true)) ∧
    (align (loadTest raws) ps).filterMap (fun r => r.pred) = ps := by
  induction raws generalizing ps with
  | nil =>
    cases ps with
    | nil => simp [loadTest, align]
    | cons p ps2 => simp [loadTest] at hps
  | cons r rs ih =>
    obtain ⟨rdate⟩ := r
    cases rdate with
    | none =>
      rw [show loadTest (⟨none⟩ :: rs) = mkTestRow ⟨none⟩ :: loadTest rs from
        rfl, List.filter_cons] at hps
      simp only [mkTestRow, Option.map_none, Option.isSome_none,
        Bool.false_eq_true, if_false] at hps
      obtain ⟨ihzip, ihfm⟩ := ih ps hps
      constructor
      · intro pr hpr
        have hred : align (loadTest (⟨none⟩ :: rs)) ps
            = { date := none, pred := none } :: align (loadTest rs) ps := by
          simp [loadTest, mkTestRow, align]
        rw [hred] at hpr
        rcases List.mem_cons.1 (by simpa [List.zip_cons_cons] using hpr)
          with h | h
        · subst h
          exact ⟨by simp, by simp, by simp⟩
        · exact ihzip pr h
      · have hred : align (loadTest (⟨none⟩ :: rs)) ps
            = { date := none, pred := none } :: align (loadTest rs) ps := by
          simp [loadTest, mkTestRow, align]
        rw [hred]
        simpa [List.filterMap_cons] using ihfm
    | some d =>
      rw [show loadTest (⟨some d⟩ :: rs) = mkTestRow ⟨some d⟩ :: loadTest rs
        from rfl, List.filter_cons] at hps
      simp only [mkTestRow, Option.map_some, Option.isSome_some, if_true] at hps
      cases ps with
      | nil => simp at hps
      | cons p ps2 =>
        have hps2 : ps2.length
            = ((loadTest rs).filter (fun r => r.date.isSome)).length := by
          simpa using hps
        obtain ⟨ihzip, ihfm⟩ := ih ps2 hps2
        have hred : align (loadTest (⟨some d⟩ :: rs)) (p :: ps2)
            = { date := some d, pred := some p } :: align (loadTest rs) ps2 := by
          simp [loadTest, mkTestRow, align]
        constructor
        · intro pr hpr
          rw [hred] at hpr
          rcases List.mem_cons.1 (by simpa [List.zip_cons_cons] using hpr)
            with h | h
          · subst h
            exact ⟨by simp, by simp, by simp⟩
          · exact ihzip pr h
        · rw [hred]
          simpa [List.filterMap_cons] using ihfm

theorem filterMap_date_length (l : List TestRow) :
    ((l.filter (fun r => r.date.isSome)).filterMap (fun r => r.date)).length
      = (l.filter (fun r => r.date.isSome)).length := by
  induction l with
  | nil => rfl
  | cons r rs ih =>
    cases hr : r.date <;>
      simp [List.filter_cons, hr, List.filterMap_cons, ih]

theorem initPipeline_of_loaded (rawTrain : List RawTrainRow)
    (rawTest : List RawTestRow) (predict : List Date → List Rat)
    (hok : (initPipeline rawTrain rawTest predict).dataLoaded = true) :
    2 ≤ (prophetInput (loadTrain rawTrain)).length ∧
    futureInput (loadTest rawTest) ≠ [] ∧
    initPipeline rawTrain rawTest predict =
      { dataLoaded := true
        train := loadTrain rawTrain
        testAligned :=
          align (loadTest rawTest)
            (predict
              ((futureInput (loadTest rawTest)).filterMap (fun r => r.date))) } := by
  rw [initPipeline] at hok ⊢
  split at hok
  · simp [failedState] at hok
  · rename_i h1
    split at hok
    · simp [failedState] at hok
    · rename_i h2
      rw [if_neg h1, if_neg h2]
      exact ⟨by omega, h2, rfl⟩

end EggSales

namespace EggSales

/-- C1: for every future-request input, the aligned test set built at
initialization (when initialization succeeds, with the model honouring its
one-value-per-date contract) has the same length as the original input;
position by position the record keeps the original date, a row whose date
failed to parse keeps an absent prediction, and a validly dated row holds a
present one; and the in-order list of predictions attributed to rows is
exactly the model's output, so every surviving row receives exactly one
prediction and no prediction is attributed to more than one row. -/
theorem c1_aligned_test_set (rawTrain : List RawTrainRow)
    (rawTest : List RawTestRow) (predict : List Date → List Rat)
    (hp : ∀ ds, (predict ds).length = ds.length)
    (hok : (initPipeline rawTrain rawTest predict).dataLoaded = true) :
    (initPipeline rawTrain rawTest predict).testAligned.length
        = rawTest.length ∧
    (∀ pr ∈ rawTest.zip (initPipeline rawTrain rawTest predict).testAligned,
        pr.2.date = pr.1.date ∧
        (pr.1.date = none → pr.2.pred = none) ∧
        (pr.1.date.isSome = true → pr.2.pred.isSome = true)) ∧
    (initPipeline rawTrain rawTest predict).testAligned.filterMap
        (fun r => r.pred)
      = predict ((futureInput (loadTest rawTest)).filterMap (fun r => r.date)) := by
  obtain ⟨-, -, hst⟩ := initPipeline_of_loaded rawTrain rawTest predict hok
  rw [hst]
  have hps : (predict
      ((futureInput (loadTest rawTest)).filterMap (fun r => r.date))).length
      = ((loadTest rawTest).filter (fun r => r.date.isSome)).length := by
    rw [hp]
    exact filterMap_date_length (loadTest rawTest)
  obtain ⟨hzip, hfm⟩ := align_spec rawTest _ hps
  refine ⟨?_, hzip, hfm⟩
  rw [align_length]
  simp [loadTest]

/-- Witness for C1 at a concrete input: a three-row future request whose
middle date fails to parse still yields a three-record aligned test set. -/
theorem c1_aligned_test_set_witness :
    (initPipeline rt0 ts0 p0).testAligned.length = ts0.length :=
  (c1_aligned_test_set rt0 ts0 p0 (fun ds => by simp [p0])
    (by
      rw [initPipeline]
      rw [if_neg (by simp [rt0, loadTrain, prophetInput, mkTrainRow,
        List.filter])]
      rw [if_neg (by simp [ts0, loadTest, futureInput, mkTestRow,
        List.filter])])).1

/-- Counterexample to C2: a raw row whose date fails to parse is NOT dropped
by the validation step (lines 27-35): `errors="coerce"` retains it in the
loaded table with a NaT date, and no dropped-row count is computed or
returned anywhere in the program. -/
theorem c2_counterexample :
    (loadTrain rtBad).length = 3 ∧
    ({ date := none, year := none, month := none, eggSales := (55 : Rat) }
        : TrainRow) ∈ loadTrain rtBad ∧
    (loadTest ts0).length = 3 ∧
    ({ date := none, year := none, month := none } : TestRow)
        ∈ loadTest ts0 := by
  exact ⟨rfl, by simp [rtBad, loadTrain, mkTrainRow], rfl,
    by simp [ts0, loadTest, mkTestRow]⟩

/-- C2 as amended: a row with an unparseable date is coerced to a missing
(NaT) date rather than raising a fatal error and is retained in the loaded
table; such rows are excluded only from the model-fitting input, where the
number of surviving rows plus the number of unparseable rows equals the
number of input rows — but that count is never returned to any caller. -/
theorem c2_amended_drop_accounting (rawTrain : List RawTrainRow)
    (rawTest : List RawTestRow) :
    (∀ r ∈ prophetInput (loadTrain rawTrain), r.date.isSome = true) ∧
    (prophetInput (loadTrain rawTrain)).length
        + rawTrain.countP (fun r => r.date.isNone) = rawTrain.length ∧
    (loadTrain rawTrain).length = rawTrain.length ∧
    (∀ r ∈ futureInput (loadTest rawTest), r.date.isSome = true) ∧
    (futureInput (loadTest rawTest)).length
        + rawTest.countP (fun r => r.date.isNone) = rawTest.length ∧
    (loadTest rawTest).length = rawTest.length := by
  refine ⟨mem_prophetInput_isSome rawTrain, ?_, by simp [loadTrain],
    mem_futureInput_isSome rawTest, ?_, by simp [loadTest]⟩
  · rw [prophetInput_loadTrain, List.length_map,
      ← List.countP_eq_length_filter]
    exact countP_date_split rawTrain
  · rw [futureInput_loadTest, List.length_map,
      ← List.countP_eq_length_filter]
    exact testCountP_date_split rawTest

/-- Witness for C2's amended statement at a concrete input. -/
theorem c2_amended_drop_accounting_witness :
    ((prophetInput (loadTrain rtBad)).length
        + rtBad.countP (fun r => r.date.isNone) = rtBad.length ∧
     (futureInput (loadTest ts0)).length
        + ts0.countP (fun r => r.date.isNone) = ts0.length) ∧
    (mkTrainRow { date := some d20210115, eggSales := 120 }).date.isSome
        = true ∧
    (mkTestRow { date := some d20220105 }).date.isSome = true :=
  ⟨⟨(c2_amended_drop_accounting rtBad ts0).2.1,
    (c2_amended_drop_accounting rtBad ts0).2.2.2.2.1⟩,
   (c2_amended_drop_accounting rtBad ts0).1 _
     (by simp [rtBad, prophetInput_loadTrain, List.filter]),
   (c2_amended_drop_accounting rtBad ts0).2.2.2.1 _
     (by simp [ts0, futureInput_loadTest, List.filter])⟩

/-- Counterexample to C3: after a successful initialization, a source row
with an unparseable date IS present in the loaded training table and in the
aligned test set (with NaT date and, in the latter, an absent prediction). -/
theorem c3_counterexample :
    (initPipeline rtBad ts0 p0).dataLoaded = true ∧
    ({ date := none, year := none, month := none, eggSales := (55 : Rat) }
        : TrainRow) ∈ (initPipeline rtBad ts0 p0).train ∧
    ({ date := none, pred := none } : PredRecord)
        ∈ (initPipeline rtBad ts0 p0).testAligned := by
  have h1 : ¬((prophetInput (loadTrain rtBad)).length < 2) := by
    simp [rtBad, loadTrain, prophetInput, mkTrainRow, List.filter]
  have h2 : ¬(futureInput (loadTest ts0) = []) := by
    simp [ts0, loadTest, futureInput, mkTestRow, List.filter]
  rw [initPipeline, if_neg h1, if_neg h2]
  refine ⟨rfl, by simp [rtBad, loadTrain, mkTrainRow], ?_⟩
  simp [ts0, loadTest, mkTestRow, futureInput, List.filter, List.filterMap,
    List.replicate, p0, align]

/-- C3 as amended: every observation actually used to fit the model and
every date sent to the model for prediction carries a validated, parseable
date; the loaded training table and the aligned test set, however, retain
unparseable-dated source rows, and in the aligned test set such a row always
carries an absent prediction. -/
theorem c3_validated_dates (rawTrain : List RawTrainRow)
    (rawTest : List RawTestRow) (predict : List Date → List Rat) :
    (∀ r ∈ prophetInput (loadTrain rawTrain), r.date.isSome = true) ∧
    (∀ r ∈ futureInput (loadTest rawTest), r.date.isSome = true) ∧
    (∀ rec ∈ (initPipeline rawTrain rawTest predict).testAligned,
        rec.date = none → rec.pred = none) ∧
    (∀ rec ∈ (initPipeline rawTrain rawTest predict).testAligned,
        rec.pred.isSome = true → rec.date.isSome = true) ∧
    ((initPipeline rawTrain rawTest predict).dataLoaded = true →
        (initPipeline rawTrain rawTest predict).testAligned.length
          = rawTest.length) := by
  refine ⟨mem_prophetInput_isSome rawTrain, mem_futureInput_isSome rawTest,
    ?_, ?_, ?_⟩
  · rw [initPipeline]
    split
    · simp [failedState]
    · split
      · simp [failedState]
      · exact align_date_none_pred _ _
  · rw [initPipeline]
    split
    · simp [failedState]
    · split
      · simp [failedState]
      · exact align_pred_some_date _ _
  · intro hok
    obtain ⟨-, -, hst⟩ := initPipeline_of_loaded _ _ _ hok
    have hta : (initPipeline rawTrain rawTest predict).testAligned
        = align (loadTest rawTest)
            (predict
              ((futureInput (loadTest rawTest)).filterMap
                (fun r => r.date))) := by
      rw [hst]
    rw [hta, align_length]
    simp [loadTest]

/-- Witness for C3's amended statement at a concrete input. -/
theorem c3_validated_dates_witness :
    (initPipeline rtBad ts0 p0).testAligned.length = ts0.length ∧
    (mkTrainRow { date := some d20210101, eggSales := 100 }).date.isSome
        = true ∧
    (({ date := none, pred := none } : PredRecord)).pred = none :=
  ⟨(c3_validated_dates rtBad ts0 p0).2.2.2.2
     (by
       rw [initPipeline]
       rw [if_neg (by simp [rtBad, loadTrain, prophetInput, mkTrainRow,
         List.filter])]
       rw [if_neg (by simp [ts0, loadTest, futureInput, mkTestRow,
         List.filter])]),
   (c3_validated_dates rtBad ts0 p0).1 _
     (by simp [rtBad, prophetInput_loadTrain, List.filter]),
   (c3_validated_dates rtBad ts0 p0).2.2.1 _
     (by
       have h1 : ¬((prophetInput (loadTrain rtBad)).length < 2) := by
         simp [rtBad, loadTrain, prophetInput, mkTrainRow, List.filter]
       have h2 : ¬(futureInput (loadTest ts0) = []) := by
         simp [ts0, loadTest, futureInput, mkTestRow, List.filter]
       rw [initPipeline, if_neg h1, if_neg h2]
       simp [ts0, loadTest, mkTestRow, futureInput, List.filter,
         List.filterMap, List.replicate, p0, align]) rfl⟩

/-- C8: any row of the loaded training table that satisfies a month/year
window filter has a successfully parsed date (and defined month and year
fields equal to the queried ones); rows whose date failed to parse have NaN
month and year and can never satisfy the exact filter, so they are invisible
to all analytics queries. -/
theorem c8_unparseable_invisible (raws : List RawTrainRow) (m : Nat)
    (y : Int) :
    ∀ r ∈ filterWindow (loadTrain raws) m y,
      r.date.isSome = true ∧ r.month = some m ∧ r.year = some y := by
  intro r hr
  have hmem : r ∈ loadTrain raws := List.mem_of_mem_filter hr
  have hcond : r.month = some m ∧ r.year = some y := by
    have := List.of_mem_filter hr
    simpa using this
  obtain ⟨raw, -, hraw⟩ := List.mem_map.1 hmem
  have hdate : r.date.isSome = true := by
    rcases hd : raw.date with _ | d
    · rw [← hraw] at hcond
      simp [mkTrainRow, hd] at hcond
    · rw [← hraw]
      simp [mkTrainRow, hd]
  exact ⟨hdate, hcond.1, hcond.2⟩

/-- Witness for C8 at a concrete input: the January 2021 row that survives
the filter indeed carries a parsed date. -/
theorem c8_unparseable_invisible_witness :
    (mkTrainRow { date := some d20210101, eggSales := 100 }).date.isSome
        = true ∧
    (mkTrainRow { date := some d20210101, eggSales := 100 }).month = some 1 :=
  ⟨(c8_unparseable_invisible rtBad 1 2021 _
      (by simp [rtBad, loadTrain, mkTrainRow, filterWindow, List.filter,
        d20210101])).1,
   (c8_unparseable_invisible rtBad 1 2021 _
      (by simp [rtBad, loadTrain, mkTrainRow, filterWindow, List.filter,
        d20210101])).2.1⟩

end EggSales

namespace EggSales

theorem seriesMax_spec (l : List Rat) (hne : l ≠ []) :
    ∃ mx, seriesMax l = some mx ∧ mx ∈ l ∧ ∀ w ∈ l, w ≤ mx := by
  induction l with
  | nil => exact absurd rfl hne
  | cons v vs ih =>
    cases hvs : vs with
    | nil =>
      refine ⟨v, ?_, by simp, by simp⟩
      simp [seriesMax]
    | cons w ws =>
      obtain ⟨mx, hmx, hmem, hb⟩ := ih (by simp [hvs])
      rw [hvs] at hmx hmem hb
      refine ⟨max v mx, ?_, ?_, ?_⟩
      · rw [show seriesMax (v :: w :: ws)
            = match seriesMax (w :: ws) with
              | none => some v
              | some m => some (max v m) from rfl, hmx]
      · rcases max_choice v mx with h | h
        · rw [h]; simp
        · rw [h]
          exact List.mem_cons_of_mem v hmem
      · intro u hu
        rcases List.mem_cons.1 hu with h | h
        · rw [h]; exact le_max_left v mx
        · exact le_trans (hb u h) (le_max_right v mx)

theorem sum_sq_dev (l : List Rat) (m : Rat) :
    (l.map (fun x => (x - m) ^ 2)).sum
      = (l.map (fun x => x ^ 2)).sum - 2 * m * l.sum
        + (l.length : Rat) * m ^ 2 := by
  induction l with
  | nil => simp
  | cons v vs ih =>
    simp only [List.map_cons, List.sum_cons, List.length_cons, ih]
    push_cast
    ring

/-- C4: `filterWindow` returns exactly the training rows whose month and
year fields equal the queried ones (no tolerance, no fallback), and the
summary over that subset satisfies `count = |subset|`, `total = Σ values`,
`mean = total / count`, and `max` is a member of the subset's values that
bounds all of them. -/
theorem c4_window_summary (rows : List TrainRow) (m : Nat) (y : Int) :
    (∀ r, r ∈ filterWindow rows m y
        ↔ r ∈ rows ∧ r.month = some m ∧ r.year = some y) ∧
    (∀ vals, vals = (filterWindow rows m y).map (fun r => r.eggSales) →
       (summarize vals).count = (filterWindow rows m y).length ∧
       (summarize vals).total = vals.sum ∧
       (summarize vals).mean
         = (summarize vals).total / ((summarize vals).count : Rat) ∧
       (vals ≠ [] → ∃ mx, (summarize vals).max = some mx ∧ mx ∈ vals ∧
          ∀ w ∈ vals, w ≤ mx)) := by
  constructor
  · intro r
    constructor
    · intro hr
      have hmem := List.mem_of_mem_filter hr
      have hcond := List.of_mem_filter hr
      simp only [decide_eq_true_eq] at hcond
      exact ⟨hmem, hcond⟩
    · intro ⟨hmem, hcond⟩
      exact List.mem_filter.2 ⟨hmem, by simpa using hcond⟩
  · intro vals hvals
    refine ⟨?_, rfl, rfl, ?_⟩
    · rw [hvals, summarize]
      simp
    · intro hne
      exact seriesMax_spec vals hne

/-- Witness for C4 at the spec's first concrete scenario: three
observations, `filterWindow(1, 2021)` selects the first two, with
`total = 220`, `count = 2`, `max = 120`. -/
theorem c4_window_summary_witness :
    (summarize vals0).count = (filterWindow rows0 1 2021).length ∧
    (summarize vals0).total = 220 ∧
    (summarize vals0).max = some 120 := by
  have hvals : vals0 = (filterWindow rows0 1 2021).map (fun r => r.eggSales) := by
    norm_num [vals0, rows0, loadTrain, mkTrainRow, filterWindow, List.filter,
      d20210101, d20210115, d20210201]
  have h := (c4_window_summary rows0 1 2021).2 vals0 hvals
  obtain ⟨mx, hmx, hmem, hb⟩ := h.2.2.2 (by simp [vals0])
  have hmx120 : mx = 120 := by
    have h120 : (120 : Rat) ≤ mx := hb 120 (by simp [vals0])
    rcases (by simpa [vals0] using hmem : mx = 100 ∨ mx = 120) with h | h
    · rw [h] at h120; norm_num at h120
    · exact h
  refine ⟨h.1, ?_, ?_⟩
  · rw [h.2.1]; norm_num [vals0]
  · rw [hmx, hmx120]

/-- C10: the standard deviation reported for a filtered subset is NaN
(undefined), not 0, when the subset has exactly one observation, and for
`count ≥ 2` it is the sample standard deviation with divisor `count - 1`:
the reported variance `v` satisfies `(count - 1) * v = Σ (x - mean)²`,
equivalently `(count - 1) * v = Σ x² - count * mean²`. -/
theorem c10_sample_std (vals : List Rat) :
    ((summarize vals).var = none ↔ vals.length < 2) ∧
    (vals.length = 1 → (summarize vals).var = none) ∧
    (2 ≤ vals.length →
       ∃ v, (summarize vals).var = some v ∧
         ((vals.length : Rat) - 1) * v
           = (vals.map (fun x => (x - (summarize vals).mean) ^ 2)).sum ∧
         ((vals.length : Rat) - 1) * v
           = (vals.map (fun x => x ^ 2)).sum
             - (vals.length : Rat) * (summarize vals).mean ^ 2) := by
  have hiff : (summarize vals).var = none ↔ vals.length < 2 := by
    rw [summarize]
    simp only [sampleVar]
    split
    · simpa
    · simpa using by omega
  refine ⟨hiff, fun h1 => hiff.2 (by omega), ?_⟩
  intro h2
  have hn0 : (vals.length : Rat) ≠ 0 := by
    have : (2 : Rat) ≤ (vals.length : Rat) := by exact_mod_cast h2
    intro h; rw [h] at this; norm_num at this
  have hn1 : (vals.length : Rat) - 1 ≠ 0 := by
    have : (2 : Rat) ≤ (vals.length : Rat) := by exact_mod_cast h2
    intro h
    have hlen : (vals.length : Rat) = 1 := by linarith
    have : vals.length = 1 := by exact_mod_cast hlen
    omega
  refine ⟨(vals.map
      (fun v => (v - vals.sum / (vals.length : Rat)) ^ 2)).sum
        / ((vals.length : Rat) - 1), ?_, ?_, ?_⟩
  · rw [summarize]
    simp only [sampleVar]
    rw [if_neg (by omega)]
  · rw [summarize]
    simp only []
    field_simp
  · have hdev := sum_sq_dev vals (vals.sum / (vals.length : Rat))
    rw [summarize]
    simp only []
    rw [mul_comm, div_mul_cancel₀ _ hn1, hdev]
    field_simp
    ring

/-- Witness for C10: a singleton subset has NaN standard deviation; a
two-value subset has sample variance with divisor 1. -/
theorem c10_sample_std_witness :
    (summarize [(1 : Rat)]).var = none ∧
    (summarize [(1 : Rat), 3]).var = some 2 := by
  refine ⟨(c10_sample_std [(1 : Rat)]).2.1 rfl, ?_⟩
  obtain ⟨v, hv, hs, -⟩ := (c10_sample_std [(1 : Rat), 3]).2.2 (by norm_num)
  have hv2 : v = 2 := by
    rw [show (summarize [(1 : Rat), 3]).mean = 2 from by
      norm_num [summarize]] at hs
    norm_num at hs
    linarith
  rw [hv, hv2]

end EggSales

namespace EggSales

theorem zip_sum_residual (xs ys : List Rat) (a b : Rat)
    (h : xs.length = ys.length) :
    ((xs.zip ys).map (fun p => p.2 - (a * p.1 + b))).sum
      = ys.sum - a * xs.sum - (xs.length : Rat) * b := by
  induction xs generalizing ys with
  | nil =>
    cases ys with
    | nil => simp
    | cons y ys2 => simp at h
  | cons x xs2 ih =>
    cases ys with
    | nil => simp at h
    | cons y ys2 =>
      have h2 : xs2.length = ys2.length := by simpa using h
      simp only [List.zip_cons_cons, List.map_cons, List.sum_cons,
        List.length_cons, ih ys2 h2]
      push_cast
      ring

theorem zip_sum_x_residual (xs ys : List Rat) (a b : Rat)
    (h : xs.length = ys.length) :
    ((xs.zip ys).map (fun p => p.1 * (p.2 - (a * p.1 + b)))).sum
      = ((xs.zip ys).map (fun p => p.1 * p.2)).sum
        - a * (xs.map (fun x => x ^ 2)).sum - b * xs.sum := by
  induction xs generalizing ys with
  | nil =>
    cases ys with
    | nil => simp
    | cons y ys2 => simp at h
  | cons x xs2 ih =>
    cases ys with
    | nil => simp at h
    | cons y ys2 =>
      have h2 : xs2.length = ys2.length := by simpa using h
      simp only [List.zip_cons_cons, List.map_cons, List.sum_cons,
        ih ys2 h2]
      ring

theorem sum_range_rat (n : Nat) :
    ((List.range n).map (fun i : Nat => (i : Rat))).sum
      = (n : Rat) * ((n : Rat) - 1) / 2 := by
  induction n with
  | zero => simp
  | succ k ih =>
    rw [List.range_succ, List.map_append, List.sum_append, ih]
    push_cast
    ring_nf
    simp
    ring

theorem sum_range_sq_rat (n : Nat) :
    ((List.range n).map (fun i : Nat => ((i : Rat)) ^ 2)).sum
      = (n : Rat) * ((n : Rat) - 1) * (2 * (n : Rat) - 1) / 6 := by
  induction n with
  | zero => simp
  | succ k ih =>
    rw [List.range_succ, List.map_append, List.sum_append, ih]
    push_cast
    ring_nf
    simp
    ring

end EggSales

namespace EggSales

theorem olsSlope_eq (ys : List Rat) :
    olsSlope ys
      = ((ys.length : Rat)
            * ((((List.range ys.length).map (fun i : Nat => (i : Rat))).zip
                ys).map (fun p => p.1 * p.2)).sum
          - ((List.range ys.length).map (fun i : Nat => (i : Rat))).sum
            * ys.sum)
        / ((ys.length : Rat)
            * (((List.range ys.length).map (fun i : Nat => (i : Rat))).map
                (fun x => x ^ 2)).sum
          - ((List.range ys.length).map (fun i : Nat => (i : Rat))).sum ^ 2) :=
  rfl

theorem olsIntercept_eq (ys : List Rat) :
    olsIntercept ys
      = (ys.sum - olsSlope ys
            * ((List.range ys.length).map (fun i : Nat => (i : Rat))).sum)
        / (ys.length : Rat) :=
  rfl

theorem xs_sq_sum (n : Nat) :
    (((List.range n).map (fun i : Nat => (i : Rat))).map
        (fun x => x ^ 2)).sum
      = (n : Rat) * ((n : Rat) - 1) * (2 * (n : Rat) - 1) / 6 := by
  rw [List.map_map]
  have : ((fun x : Rat => x ^ 2) ∘ fun i : Nat => (i : Rat))
      = fun i : Nat => ((i : Rat)) ^ 2 := rfl
  rw [this, sum_range_sq_rat]

theorem design_det_pos (n : Nat) (hn : 6 ≤ n) :
    (n : Rat)
        * (((List.range n).map (fun i : Nat => (i : Rat))).map
            (fun x => x ^ 2)).sum
      - ((List.range n).map (fun i : Nat => (i : Rat))).sum ^ 2 ≠ 0 := by
  rw [xs_sq_sum, sum_range_rat]
  have h6 : (6 : Rat) ≤ (n : Rat) := by exact_mod_cast hn
  have hval : (n : Rat) * ((n : Rat) * ((n : Rat) - 1)
        * (2 * (n : Rat) - 1) / 6)
      - ((n : Rat) * ((n : Rat) - 1) / 2) ^ 2
      = (n : Rat) ^ 2 * ((n : Rat) - 1) * ((n : Rat) + 1) / 12 := by
    ring
  rw [hval]
  have hpos : 0 < (n : Rat) ^ 2 * ((n : Rat) - 1) * ((n : Rat) + 1) / 12 := by
    apply div_pos
    · apply mul_pos
      · apply mul_pos
        · have : (0 : Rat) < (n : Rat) := by linarith
          positivity
        · linarith
      · linarith
    · norm_num
  exact ne_of_gt hpos

theorem ols_normal_identity (N SX SXX SXY SY : Rat) (hn : N ≠ 0)
    (hD : N * SXX - SX ^ 2 ≠ 0) :
    SXY - ((N * SXY - SX * SY) / (N * SXX - SX ^ 2)) * SXX
      - ((SY - ((N * SXY - SX * SY) / (N * SXX - SX ^ 2)) * SX) / N) * SX
      = 0 := by
  field_simp
  ring

/-- C5: the trend fit exists exactly when the filtered subset has more than
5 points (`none` whenever `count ≤ 5`); when it exists, it carries one
fitted value `slope*i + intercept` per sequential position `i = 0..count-1`
(so `len(fitted_points) == count`), and the slope and intercept satisfy both
normal equations of ordinary least squares of value against sequential
position — the residuals and the position-weighted residuals each sum to
zero — so the line is the OLS fit against position, not calendar time. -/
theorem c5_trend_line (ys : List Rat) :
    (fitTrend ys = none ↔ ys.length ≤ 5) ∧
    (∀ t, fitTrend ys = some t →
       t.fitted.length = ys.length ∧
       t.fitted = (List.range ys.length).map
         (fun i : Nat => t.slope * (i : Rat) + t.intercept) ∧
       ((((List.range ys.length).map (fun i : Nat => (i : Rat))).zip ys).map
           (fun p => p.2 - (t.slope * p.1 + t.intercept))).sum = 0 ∧
       ((((List.range ys.length).map (fun i : Nat => (i : Rat))).zip ys).map
           (fun p => p.1 * (p.2 - (t.slope * p.1 + t.intercept)))).sum
         = 0) := by
  constructor
  · rw [fitTrend]
    split
    · simpa
    · simp only [reduceCtorEq, false_iff]
      omega
  · intro t ht
    rw [fitTrend] at ht
    split at ht
    · exact absurd ht (by simp)
    · rename_i h5
      have h6 : 6 ≤ ys.length := by omega
      have hts : t.slope = olsSlope ys := by
        rw [← Option.some_inj.1 ht]
      have htb : t.intercept = olsIntercept ys := by
        rw [← Option.some_inj.1 ht]
      have htf : t.fitted
          = ((List.range ys.length).map (fun i : Nat => (i : Rat))).map
              (fun x => olsSlope ys * x + olsIntercept ys) := by
        rw [← Option.some_inj.1 ht]
      have hlen : ((List.range ys.length).map
          (fun i : Nat => (i : Rat))).length = ys.length := by simp
      have hn0 : ((ys.length : Rat)) ≠ 0 := by
        have : (6 : Rat) ≤ (ys.length : Rat) := by exact_mod_cast h6
        intro h
        rw [h] at this
        norm_num at this
      have hD := design_det_pos ys.length h6
      refine ⟨by simp [htf], ?_, ?_, ?_⟩
      · rw [htf, List.map_map]
        rw [hts, htb]
        rfl
      · rw [zip_sum_residual _ _ _ _ hlen, hlen, hts, htb, olsIntercept_eq]
        field_simp
      · rw [zip_sum_x_residual _ _ _ _ hlen, hts, htb, olsIntercept_eq,
          olsSlope_eq]
        exact ols_normal_identity _ _ _ _ _ hn0 hD

end EggSales

namespace EggSales

/-- Witness for C5: six equal values produce a trend line with six fitted
points. -/
theorem c5_trend_line_witness : t0.fitted.length = ys0.length :=
  ((c5_trend_line ys0).2 t0
    (by norm_num [fitTrend, olsSlope, olsIntercept, ys0, t0,
      List.range_succ])).1

end EggSales

namespace EggSales

theorem find_eq_filter_head {α : Type} (p : α → Bool) :
    ∀ l : List α, l.find? p = (l.filter p).head? := by
  intro l
  induction l with
  | nil => rfl
  | cons a as ih =>
    cases hpa : p a with
    | true =>
      rw [List.find?_cons_of_pos _ hpa, List.filter_cons_of_pos hpa]
      rfl
    | false =>
      rw [List.find?_cons_of_neg _ (by simp [hpa]),
        List.filter_cons_of_neg (by simp [hpa]), ih]

/-- C6: for every lookup date on an initialized, nonempty aligned test set:
if no record matches the date, the single NotFound outcome (the
out-of-range panel) is returned as a value; if some record matches, the
first matching record in sequence order decides the result — NotFound when
its stored prediction is absent, and otherwise the stored (unrounded) value
rounded to the nearest whole number. -/
theorem c6_lookup (st : PipelineState) (hl : st.dataLoaded = true)
    (hne : st.testAligned ≠ []) (d : Date) :
    ((∀ rec ∈ st.testAligned, rec.date ≠ some d) →
        show_prediction st d = PredResult.outOfRange) ∧
    (∀ rec,
        st.testAligned.find? (fun r => decide (r.date = some d)) = some rec →
        (rec.pred = none → show_prediction st d = PredResult.outOfRange) ∧
        (∀ v, rec.pred = some v →
            show_prediction st d = PredResult.found (roundHalfEven v))) := by
  have hcond : ¬(st.dataLoaded = false ∨ st.testAligned = []) := by
    simp [hl, hne]
  constructor
  · intro hnone
    rw [show_prediction, if_neg hcond]
    have hfil : st.testAligned.filter (fun r => decide (r.date = some d))
        = [] := by
      rw [List.filter_eq_nil_iff]
      intro a ha
      simp [hnone a ha]
    rw [hfil]
  · intro rec hfind
    have hhead : (st.testAligned.filter
        (fun r => decide (r.date = some d))).head? = some rec := by
      rw [← find_eq_filter_head]
      exact hfind
    obtain ⟨rest, hfil⟩ : ∃ rest,
        st.testAligned.filter (fun r => decide (r.date = some d))
          = rec :: rest := by
      cases hf : st.testAligned.filter (fun r => decide (r.date = some d)) with
      | nil => rw [hf] at hhead; simp at hhead
      | cons a as =>
        rw [hf] at hhead
        simp at hhead
        exact ⟨as, by rw [hhead]⟩
    constructor
    · intro hpred
      rw [show_prediction, if_neg hcond, hfil]
      simp [hpred]
    · intro v hpred
      rw [show_prediction, if_neg hcond, hfil]
      simp [hpred]

/-- Witness for C6: on an aligned set where two records share the date
5 Jan 2022, lookup returns the first one's value 87.5, rounded to 88. -/
theorem c6_lookup_witness : show_prediction st6 d20220105 = .found 88 := by
  have h := (c6_lookup st6 rfl (by simp [st6]) d20220105).2 rec6
    (by simp [st6, rec6, List.find?])
  have h2 := h.2 (175 / 2) rfl
  rw [h2]
  norm_num [roundHalfEven]

/-- C7: a failed one-time initialization leaves the disabled state, in which
the analytics surface reports "Data Not Available" and the lookup surface
reports "Prediction Unavailable" (and a too-small training set does land in
the disabled state); on a successfully initialized pipeline a window query
matching zero observations yields the distinct "No Data Found"
(EmptyWindowResult) outcome; the outcomes are distinguishable and both
callbacks are total functions, raising no exception. -/
theorem c7_disabled_state :
    (∀ m y, update_graph failedState m y = GraphResult.dataNotAvailable) ∧
    (∀ d, show_prediction failedState d = PredResult.unavailable) ∧
    (∀ rawTrain rawTest predict,
        (prophetInput (loadTrain rawTrain)).length < 2 →
        initPipeline rawTrain rawTest predict = failedState) ∧
    (∀ rawTrain rawTest predict m y,
        (initPipeline rawTrain rawTest predict).dataLoaded = true →
        filterWindow (initPipeline rawTrain rawTest predict).train m y = [] →
        update_graph (initPipeline rawTrain rawTest predict) m y
          = GraphResult.noDataFound) ∧
    GraphResult.noDataFound ≠ GraphResult.dataNotAvailable ∧
    PredResult.outOfRange ≠ PredResult.unavailable := by
  refine ⟨?_, ?_, ?_, ?_, by simp, by simp⟩
  · intro m y
    rw [update_graph, if_pos (by simp [failedState])]
  · intro d
    rw [show_prediction, if_pos (by simp [failedState])]
  · intro rawTrain rawTest predict h
    rw [initPipeline, if_pos h]
  · intro rawTrain rawTest predict m y hok hfil
    obtain ⟨h2, -, hst⟩ := initPipeline_of_loaded _ _ _ hok
    have htr : (initPipeline rawTrain rawTest predict).train
        = loadTrain rawTrain := by rw [hst]
    have hlen2 : 2 ≤ (loadTrain rawTrain).length :=
      le_trans h2 (List.length_filter_le _ _)
    have htrne : loadTrain rawTrain ≠ [] := by
      intro h
      rw [h] at hlen2
      simp at hlen2
    simp only [update_graph]
    rw [if_neg (by simp [hok, htr, htrne]), if_pos hfil]

/-- Witness for C7 at concrete inputs. -/
theorem c7_disabled_state_witness :
    update_graph failedState 1 2021 = GraphResult.dataNotAvailable ∧
    show_prediction failedState d20220105 = PredResult.unavailable ∧
    initPipeline [] [] p0 = failedState ∧
    update_graph (initPipeline rt0 ts0 p0) 3 2021
      = GraphResult.noDataFound := by
  refine ⟨c7_disabled_state.1 1 2021, c7_disabled_state.2.1 d20220105,
    c7_disabled_state.2.2.1 [] [] p0 (by simp [loadTrain, prophetInput]), ?_⟩
  have hok : (initPipeline rt0 ts0 p0).dataLoaded = true := by
    rw [initPipeline]
    rw [if_neg (by simp [rt0, loadTrain, prophetInput, mkTrainRow,
      List.filter])]
    rw [if_neg (by simp [ts0, loadTest, futureInput, mkTestRow, List.filter])]
  refine c7_disabled_state.2.2.2.1 rt0 ts0 p0 3 2021 hok ?_
  obtain ⟨-, -, hst⟩ := initPipeline_of_loaded rt0 ts0 p0 hok
  have htr : (initPipeline rt0 ts0 p0).train = loadTrain rt0 := by rw [hst]
  rw [htr]
  simp [rt0, loadTrain, mkTrainRow, filterWindow, List.filter, d20210101,
    d20210115]

/-- C9: the rounding `int(round(...))` applies to the looked-up prediction
is round-half-to-even: a stored prediction exactly halfway between two
integers comes back as the even neighbour — in particular 88.5 yields 88,
not the larger integer 89. -/
theorem c9_round_half_even :
    (∀ (k : Int) (d : Date),
        ∃ r,
          show_prediction
              { dataLoaded := true
                train := []
                testAligned :=
                  [{ date := some d, pred := some ((k : Rat) + 1 / 2) }] } d
            = PredResult.found r ∧ r % 2 = 0 ∧ (r = k ∨ r = k + 1)) ∧
    show_prediction st9 d20220106 = PredResult.found 88 := by
  constructor
  · intro k d
    have hfloor : ⌊(k : Rat) + 1 / 2⌋ = k := by
      rw [show (k : Rat) + 1 / 2 = 1 / 2 + (k : Rat) from by ring,
        Int.floor_add_int]
      norm_num
    have hr : roundHalfEven ((k : Rat) + 1 / 2)
        = if k % 2 = 0 then k else k + 1 := by
      rw [roundHalfEven, hfloor]
      rw [show (k : Rat) + 1 / 2 - (k : Rat) = 1 / 2 from by ring]
      rw [if_neg (by norm_num), if_neg (by norm_num)]
    have hred : show_prediction
        { dataLoaded := true
          train := []
          testAligned :=
            [{ date := some d, pred := some ((k : Rat) + 1 / 2) }] } d
        = PredResult.found (roundHalfEven ((k : Rat) + 1 / 2)) := by
      rw [show_prediction, if_neg (by simp)]
      simp [List.filter]
    refine ⟨roundHalfEven ((k : Rat) + 1 / 2), hred, ?_, ?_⟩
    · rw [hr]
      rcases Int.emod_two_eq k with he | ho
      · rw [if_pos he]
        exact he
      · rw [if_neg (by omega)]
        omega
    · rw [hr]
      rcases Int.emod_two_eq k with he | ho
      · rw [if_pos he]
        exact Or.inl rfl
      · rw [if_neg (by omega)]
        exact Or.inr rfl
  · rw [show_prediction, if_neg (by simp [st9])]
    simp only [st9]
    simp [List.filter]
    norm_num [roundHalfEven]

end EggSales
